import Mathlib

/-!
Verification of the relative-speed computation and Markdown table rendering
pipeline of a command-line benchmarking tool.

The repository source provides `src/export/markdown.rs`: the `MarkdownExporter`
with its `serialize` entry point and its unit tests.  The collaborating modules
(`benchmark::relative_speed`, `export::markup`, `util::units`) are declared and
called there but their code is not part of the excerpt; their definitions below
are modelled from the specification and carry a doc comment saying so.

Real-valued measurement data is embedded as exact rationals (`ℚ`).  The one
irrational quantity in the pipeline, the propagated uncertainty of a ratio
(`r * sqrt(...)`), is carried as its exact square, a rational; rendering takes
the square root at the final integer-rounding step, where it is computable.
-/

namespace Hyperfine

/-- The immutable measurement record for one benchmarked command, as used by
the test fixtures of `src/export/markdown.rs` (fields `command`, `mean`,
`stddev`, `median`, `user`, `system`, `min`, `max`, `times`, `exit_codes`,
`parameters`).  Times are in seconds, embedded as exact rationals. -/
structure BenchmarkResult where
  command : String
  mean : ℚ
  stddev : Option ℚ
  median : ℚ
  user : ℚ
  system : ℚ
  min : ℚ
  max : ℚ
  times : Option (List ℚ)
  exit_codes : List (Option ℤ)
  parameters : List (String × String)
deriving DecidableEq

/-- Modelled from the spec: the `Unit` enumeration of time magnitudes
(`util::units::Unit` is not part of the source excerpt; `markdown.rs` uses
`Unit::Second` and `Unit::MilliSecond`).  Named `TimeUnit` here because `Unit`
is taken by the Lean prelude. -/
inductive TimeUnit where
  | Second
  | MilliSecond
  | MicroSecond
deriving DecidableEq

/-- Modelled from the spec: the canonical short display name of a unit
(`s`, `ms`, `µs`). -/
def TimeUnit.short_name : TimeUnit → String
  | .Second => "s"
  | .MilliSecond => "ms"
  | .MicroSecond => "µs"

/-- Modelled from the spec: conversion factor from seconds to the unit. -/
def TimeUnit.factor : TimeUnit → ℚ
  | .Second => 1
  | .MilliSecond => 1000
  | .MicroSecond => 1000000

/-- Modelled from the spec: the fixed fractional display precision of a unit
(3 decimals for second-scale, 1 decimal for sub-second-scale units). -/
def TimeUnit.decimal_places : TimeUnit → ℕ
  | .Second => 3
  | .MilliSecond => 1
  | .MicroSecond => 1

/-- Modelled from the spec: the unit picked from a mean value (in seconds)
when no unit is forced: seconds for a mean of at least one second, else
milliseconds, else microseconds. -/
def unit_from_mean (mean : ℚ) : TimeUnit :=
  if 1 ≤ mean then .Second
  else if 1/1000 ≤ mean then .MilliSecond
  else .MicroSecond

/-- Modelled from the spec: the Unit Resolver (`markup_unit` in the source's
imports).  A forced unit is returned unchanged; otherwise the unit is chosen
from the first result's mean.  The empty/unforced case is unreachable from
`serialize` (which fails on empty input first); it defaults to seconds. -/
def markup_unit (results : List BenchmarkResult) (unit : Option TimeUnit) : TimeUnit :=
  match unit with
  | some u => u
  | none =>
    match results with
    | [] => .Second
    | r :: _ => unit_from_mean r.mean

/-- Modelled from the spec: one derived entry of the RelativeSpeed Engine.
`relative_stddev_sq` carries the exact square of the propagated uncertainty
`relative_stddev = r * sqrt((stddev/mean)^2 + (fastest.stddev/fastest.mean)^2)`,
so the stored rational is `r^2 * ((stddev/mean)^2 + (fastest.stddev/fastest.mean)^2)`;
it is present exactly when both standard deviations are present. -/
structure RelativeSpeedEntry where
  result : BenchmarkResult
  relative_mean : ℚ
  relative_stddev_sq : Option ℚ
deriving DecidableEq

/-- Modelled from the spec: the fastest entry is the one with the minimum mean,
ties broken by first occurrence in input order; `none` on an empty list. -/
def fastest_of (results : List BenchmarkResult) : Option BenchmarkResult :=
  match results with
  | [] => none
  | r :: rs => some (rs.foldl (fun acc x => if x.mean < acc.mean then x else acc) r)

/-- Modelled from the spec: the RelativeSpeed Engine's per-entry computation
relative to the fastest entry: `relative_mean = mean / fastest.mean`, and the
squared propagated uncertainty when both standard deviations are present. -/
def make_entry (fastest r : BenchmarkResult) : RelativeSpeedEntry :=
  { result := r
    relative_mean := r.mean / fastest.mean
    relative_stddev_sq :=
      match r.stddev, fastest.stddev with
      | some s, some fs =>
        some ((r.mean / fastest.mean) ^ 2 * ((s / r.mean) ^ 2 + (fs / fastest.mean) ^ 2))
      | _, _ => none }

/-- Modelled from the spec: `relative_speed::compute`; `none` exactly on empty
input, otherwise one entry per result, in input order. -/
def compute (results : List BenchmarkResult) : Option (List RelativeSpeedEntry) :=
  (fastest_of results).map (fun f => results.map (make_entry f))

/-- Render a natural number `n`, understood as a value scaled by `10 ^ d`, as a
decimal numeral with exactly `d` fractional digits (e.g. `digits_string 1 1057`
is `"105.7"`). -/
def digits_string (d : ℕ) (n : ℕ) : String :=
  if d = 0 then toString n
  else
    let p : ℕ := 10 ^ d
    let fs := toString (n % p)
    toString (n / p) ++ "." ++ String.mk (List.replicate (d - fs.length) '0') ++ fs

/-- Modelled from the spec: round a non-negative value to `d` decimal places
with round-half-away-from-zero, returning the scaled integer
`⌊x * 10 ^ d + 1/2⌋` (for non-negative `x`, rounding half up coincides with
rounding half away from zero). -/
def round_decimals (d : ℕ) (x : ℚ) : ℕ :=
  (⌊x * 10 ^ d + 1/2⌋).toNat

/-- Modelled from the spec: round `Real.sqrt q` (for a non-negative rational
`q`) to `d` decimal places with round-half-away-from-zero, returning the scaled
integer `⌊sqrt q * 10 ^ d + 1/2⌋`.  Writing `q = a/b`, that floor equals
`(Nat.sqrt (4 * 10 ^ (2*d) * a * b) + b) / (2 * b)` in integer arithmetic,
which is computable; `round_sqrt_eq_floor` below proves the equality. -/
def round_sqrt (d : ℕ) (q : ℚ) : ℕ :=
  (Nat.sqrt (4 * 10 ^ (2 * d) * q.num.toNat * q.den) + q.den) / (2 * q.den)

/-- Modelled from the spec: fixed-precision decimal rendering of a rational. -/
def format_value (d : ℕ) (x : ℚ) : String :=
  digits_string d (round_decimals d x)

/-- Modelled from the spec: fixed-precision decimal rendering of the square
root of a rational (used for the propagated relative standard deviation). -/
def format_sqrt_value (d : ℕ) (q : ℚ) : String :=
  digits_string d (round_sqrt d q)

/-- Modelled from the spec: `format_time` of the Markup Formatter.  Converts a
time in seconds to the resolved unit, renders it at the unit's precision, and
appends `" ± <stddev>"` only when the standard deviation is present. -/
def format_time (value : ℚ) (stddev : Option ℚ) (u : TimeUnit) : String :=
  format_value u.decimal_places (value * u.factor) ++
    match stddev with
    | some s => " ± " ++ format_value u.decimal_places (s * u.factor)
    | none => ""

/-- Modelled from the spec: `format_relative` of the Markup Formatter.  The
fastest entry (`relative_mean == 1.0`) renders as exactly `"1.00"` with no
`±` suffix; otherwise the ratio renders to 2 decimals, with
`" ± <relative_stddev to 2 decimals>"` appended when present. -/
def format_relative (rel : ℚ) (stddev_sq : Option ℚ) : String :=
  if rel = 1 then "1.00"
  else
    format_value 2 rel ++
      match stddev_sq with
      | some q => " ± " ++ format_sqrt_value 2 q
      | none => ""

/-- Modelled from the spec: `format_command` wraps the command in the Markdown
inline-code syntax (surrounding backticks). -/
def format_command (cmd : String) : String :=
  "`" ++ cmd ++ "`"

/-- The unit-parameterized Markdown header block, as pinned down by the
`test_table_header` helper in `src/export/markdown.rs`. -/
def table_header (unit_short_name : String) : String :=
  "| Command | Mean [" ++ unit_short_name ++ "] | Min [" ++ unit_short_name ++
    "] | Max [" ++ unit_short_name ++ "] | Relative |\n|:---|---:|---:|---:|---:|\n"

/-- Modelled from the spec: the per-row cells of the table, in input order:
formatted command, mean ± stddev, min, max, relative ± uncertainty
(`markup_results` in the source's imports). -/
def markup_results (entries : List RelativeSpeedEntry) (u : TimeUnit) : List (List String) :=
  entries.map (fun e =>
    [format_command e.result.command,
     format_time e.result.mean e.result.stddev u,
     format_time e.result.min none u,
     format_time e.result.max none u,
     format_relative e.relative_mean e.relative_stddev_sq])

/-- Modelled from the spec: Markdown framing of one table row. -/
def table_row (cells : List String) : String :=
  "| " ++ String.intercalate " | " cells ++ " |\n"

/-- Modelled from the spec: `markup_table` assembles the header block and the
framed rows into the final table text (`markup_table` in the source's
imports). -/
def markup_table (u : TimeUnit) (rows : List (List String)) : String :=
  table_header u.short_name ++ String.join (rows.map table_row)

/-- `MarkdownExporter::serialize` from `src/export/markdown.rs`: compute the
relative speeds, fail with the "Relative speed comparison is not available"
error when that is `None`, otherwise resolve the unit, format and render the
table.  The output bytes are modelled as the table's text. -/
def serialize (results : List BenchmarkResult) (unit : Option TimeUnit) :
    Except String String :=
  match compute results with
  | none => .error "Relative speed comparison is not available for Markdown export."
  | some entries =>
    let u := markup_unit results unit
    .ok (markup_table u (markup_results entries u))

/-- The pipeline stages of `serialize`, used to record the order in which the
source performs them. -/
inductive Step where
  | compute
  | resolve
  | render
  | encode
deriving DecidableEq

/-- The stages `serialize` executes, in the order its source statements run
them: `relative_speed::compute` first (line 17), then the `is_none` check with
early error return (lines 18–22), then `markup_unit` (line 25), then
`markup_results`/`markup_table` (lines 26–27), then byte encoding (line 28). -/
def serialize_steps (results : List BenchmarkResult) (unit : Option TimeUnit) :
    List Step :=
  match compute results, unit with
  | none, _ => [Step.compute]
  | some _, _ => [Step.compute, Step.resolve, Step.render, Step.encode]

/-! ## Test fixtures

The two benchmark results used throughout the tests of
`src/export/markdown.rs` (`sleep 0.1` and `sleep 2`). -/

/-- The `sleep 0.1` fixture of the source's tests. -/
def msR1 : BenchmarkResult :=
  { command := "sleep 0.1"
    mean := 1057/10000
    stddev := some (16/10000)
    median := 1057/10000
    user := 9/10000
    system := 11/10000
    min := 1023/10000
    max := 1080/10000
    times := some [1/10, 1/10, 1/10]
    exit_codes := [some 0, some 0, some 0]
    parameters := [] }

/-- The `sleep 2` fixture of the source's tests. -/
def msR2 : BenchmarkResult :=
  { command := "sleep 2"
    mean := 2005/1000
    stddev := some (2/1000)
    median := 2005/1000
    user := 9/10000
    system := 12/10000
    min := 2002/1000
    max := 2008/1000
    times := some [2, 2, 2]
    exit_codes := [some 0, some 0, some 0]
    parameters := [] }

/-- The input sequence of `test_markdown_format_ms`: fastest first. -/
def msResults : List BenchmarkResult := [msR1, msR2]

/-! ## Evaluation helpers -/

theorem make_entry_result (f r : BenchmarkResult) : (make_entry f r).result = r := rfl

theorem make_entry_rel (f r : BenchmarkResult) :
    (make_entry f r).relative_mean = r.mean / f.mean := rfl

theorem make_entry_sq_some (f r : BenchmarkResult) (s fs : ℚ)
    (hs : r.stddev = some s) (hfs : f.stddev = some fs) :
    (make_entry f r).relative_stddev_sq =
      some ((r.mean / f.mean) ^ 2 * ((s / r.mean) ^ 2 + (fs / f.mean) ^ 2)) := by
  unfold make_entry
  rw [hs, hfs]

theorem make_entry_sq_none (f r : BenchmarkResult)
    (h : r.stddev = none ∨ f.stddev = none) :
    (make_entry f r).relative_stddev_sq = none := by
  unfold make_entry
  rcases h with h | h
  · rw [h]
  · rw [h]
    cases r.stddev <;> rfl

theorem compute_of_fastest {l : List BenchmarkResult} {f : BenchmarkResult}
    (h : fastest_of l = some f) :
    compute l = some (l.map (make_entry f)) := by
  unfold compute
  rw [h]
  rfl

theorem fastest_of_pair (a b : BenchmarkResult) :
    fastest_of [a, b] = some (if b.mean < a.mean then b else a) := rfl

theorem format_value_eval (d : ℕ) (x : ℚ) (m : ℤ) (n : ℕ)
    (hm : ⌊x * 10 ^ d + 1/2⌋ = m) (hn : m.toNat = n) :
    format_value d x = digits_string d n := by
  unfold format_value round_decimals
  rw [hm, hn]

theorem format_sqrt_value_eval (d : ℕ) (q : ℚ) (a b n : ℕ)
    (ha : q.num = (a : ℤ)) (hb : q.den = b)
    (h : (Nat.sqrt (4 * 10 ^ (2 * d) * a * b) + b) / (2 * b) = n) :
    format_sqrt_value d q = digits_string d n := by
  unfold format_sqrt_value round_sqrt
  rw [ha, hb, Int.toNat_ofNat, h]

/-! ## Concrete evaluations on the fixtures -/

theorem fastest_msResults : fastest_of msResults = some msR1 := by
  rw [show msResults = [msR1, msR2] from rfl, fastest_of_pair, if_neg]
  norm_num [msR1, msR2]

theorem compute_msResults :
    compute msResults = some [make_entry msR1 msR1, make_entry msR1 msR2] :=
  compute_of_fastest fastest_msResults

theorem rel_msR1 : (make_entry msR1 msR1).relative_mean = 1 := by
  rw [make_entry_rel]
  norm_num [msR1]

theorem rel_msR2 : (make_entry msR1 msR2).relative_mean = 20050/1057 := by
  rw [make_entry_rel]
  norm_num [msR1, msR2]

theorem sq_msR2 : (make_entry msR1 msR2).relative_stddev_sq =
    some ((20050/1057 : ℚ) ^ 2 * ((2/2005 : ℚ) ^ 2 + (16/1057 : ℚ) ^ 2)) := by
  rw [make_entry_sq_some msR1 msR2 (2/1000) (16/10000) rfl rfl]
  congr 1
  norm_num [msR1, msR2]

theorem format_relative_msR1 :
    format_relative (make_entry msR1 msR1).relative_mean
      (make_entry msR1 msR1).relative_stddev_sq = "1.00" := by
  rw [rel_msR1]
  unfold format_relative
  rw [if_pos rfl]

theorem format_relative_msR2 :
    format_relative (make_entry msR1 msR2).relative_mean
      (make_entry msR1 msR2).relative_stddev_sq = "18.97 ± 0.29" := by
  rw [rel_msR2, sq_msR2]
  unfold format_relative
  rw [if_neg (by norm_num)]
  rw [format_value_eval 2 _ 1897 1897 (by norm_num) rfl]
  show digits_string 2 1897 ++
    (" ± " ++ format_sqrt_value 2 ((20050/1057 : ℚ) ^ 2 * ((2/2005 : ℚ) ^ 2 + (16/1057 : ℚ) ^ 2))) =
    "18.97 ± 0.29"
  rw [format_sqrt_value_eval 2 _ 103359539600 1248245328001 29
    (by norm_num) (by norm_num) (by norm_num)]
  decide

/-! ## The fold computing the fastest entry -/

/-- The accumulator step of `fastest_of`: keep the running minimum, preferring
the earlier element on ties (strict comparison). -/
def min_acc (acc x : BenchmarkResult) : BenchmarkResult :=
  if x.mean < acc.mean then x else acc

theorem fastest_of_cons (r : BenchmarkResult) (rs : List BenchmarkResult) :
    fastest_of (r :: rs) = some (rs.foldl min_acc r) := rfl

theorem min_acc_mean_le_left (a x : BenchmarkResult) : (min_acc a x).mean ≤ a.mean := by
  unfold min_acc
  by_cases h : x.mean < a.mean
  · rw [if_pos h]
    exact le_of_lt h
  · rw [if_neg h]

theorem min_acc_mean_le_right (a x : BenchmarkResult) : (min_acc a x).mean ≤ x.mean := by
  unfold min_acc
  by_cases h : x.mean < a.mean
  · rw [if_pos h]
  · rw [if_neg h]
    exact le_of_not_lt h

theorem foldl_min_mean_le_init :
    ∀ (rs : List BenchmarkResult) (a : BenchmarkResult),
      (rs.foldl min_acc a).mean ≤ a.mean := by
  intro rs
  induction rs with
  | nil => intro a; exact le_refl _
  | cons x xs ih =>
    intro a
    rw [List.foldl_cons]
    exact le_trans (ih (min_acc a x)) (min_acc_mean_le_left a x)

theorem foldl_min_mean_le_mem :
    ∀ (rs : List BenchmarkResult) (a x : BenchmarkResult), x ∈ rs →
      (rs.foldl min_acc a).mean ≤ x.mean := by
  intro rs
  induction rs with
  | nil => intro a x hx; cases hx
  | cons y ys ih =>
    intro a x hx
    rw [List.foldl_cons]
    rcases List.mem_cons.mp hx with h | h
    · subst h
      exact le_trans (foldl_min_mean_le_init ys (min_acc a x)) (min_acc_mean_le_right a x)
    · exact ih (min_acc a y) x h

theorem foldl_min_mem :
    ∀ (rs : List BenchmarkResult) (a : BenchmarkResult),
      rs.foldl min_acc a = a ∨ rs.foldl min_acc a ∈ rs := by
  intro rs
  induction rs with
  | nil => intro a; exact Or.inl rfl
  | cons y ys ih =>
    intro a
    rw [List.foldl_cons]
    rcases ih (min_acc a y) with h | h
    · rw [h]
      unfold min_acc
      by_cases hy : y.mean < a.mean
      · rw [if_pos hy]
        exact Or.inr (List.mem_cons_self y ys)
      · rw [if_neg hy]
        exact Or.inl rfl
    · exact Or.inr (List.mem_cons_of_mem y h)

theorem foldl_min_eq_init_of_mean :
    ∀ (rs : List BenchmarkResult) (a : BenchmarkResult),
      (rs.foldl min_acc a).mean = a.mean → rs.foldl min_acc a = a := by
  intro rs
  induction rs with
  | nil => intro a _; rfl
  | cons x xs ih =>
    intro a h
    rw [List.foldl_cons] at h ⊢
    by_cases hx : x.mean < a.mean
    · exfalso
      have hle : (xs.foldl min_acc (min_acc a x)).mean ≤ (min_acc a x).mean :=
        foldl_min_mean_le_init xs (min_acc a x)
      have hxa : (min_acc a x).mean ≤ x.mean := min_acc_mean_le_right a x
      have : a.mean ≤ x.mean := h ▸ le_trans hle hxa
      exact absurd hx (not_lt_of_le this)
    · have hax : min_acc a x = a := by unfold min_acc; rw [if_neg hx]
      rw [hax] at h ⊢
      exact ih a h

theorem foldl_min_first :
    ∀ (rs : List BenchmarkResult) (a : BenchmarkResult),
      (a :: rs).find? (fun r => decide (r.mean = (rs.foldl min_acc a).mean)) =
        some (rs.foldl min_acc a) := by
  intro rs
  induction rs with
  | nil =>
    intro a
    rw [List.find?_cons_of_pos _ (by simp)]
    rfl
  | cons x xs ih =>
    intro a
    rw [List.foldl_cons]
    by_cases hx : x.mean < a.mean
    · have hmin : min_acc a x = x := by unfold min_acc; rw [if_pos hx]
      rw [hmin]
      have hF : (xs.foldl min_acc x).mean < a.mean :=
        lt_of_le_of_lt (foldl_min_mean_le_init xs x) hx
      rw [List.find?_cons_of_neg]
      · exact ih x
      · simp only [decide_eq_true_eq]
        intro hc
        rw [hc] at hF
        exact lt_irrefl _ hF
    · have hmin : min_acc a x = a := by unfold min_acc; rw [if_neg hx]
      rw [hmin]
      have hFa : (xs.foldl min_acc a).mean ≤ a.mean := foldl_min_mean_le_init xs a
      by_cases heq : (xs.foldl min_acc a).mean = a.mean
      · have hfold : xs.foldl min_acc a = a := foldl_min_eq_init_of_mean xs a heq
        rw [hfold]
        rw [List.find?_cons_of_pos _ (by simp)]
      · have hlt : (xs.foldl min_acc a).mean < a.mean := lt_of_le_of_ne hFa heq
        have hlx : (xs.foldl min_acc a).mean < x.mean :=
          lt_of_lt_of_le hlt (le_of_not_lt hx)
        have hpa : ¬ ((fun r => decide (r.mean = (xs.foldl min_acc a).mean)) a = true) := by
          simp only [decide_eq_true_eq]
          intro hc
          rw [hc] at hlt
          exact lt_irrefl _ hlt
        have hpx : ¬ ((fun r => decide (r.mean = (xs.foldl min_acc a).mean)) x = true) := by
          simp only [decide_eq_true_eq]
          intro hc
          rw [hc] at hlx
          exact lt_irrefl _ hlx
        have h1 := ih a
        rw [List.find?_cons_of_neg (p := fun r => decide (r.mean = (xs.foldl min_acc a).mean))
          xs hpa] at h1
        rw [List.find?_cons_of_neg (p := fun r => decide (r.mean = (xs.foldl min_acc a).mean))
          (x :: xs) hpa]
        rw [List.find?_cons_of_neg (p := fun r => decide (r.mean = (xs.foldl min_acc a).mean))
          xs hpx]
        exact h1

/-! ## General facts about `fastest_of` and `compute` -/

theorem fastest_of_eq_none_iff (l : List BenchmarkResult) :
    fastest_of l = none ↔ l = [] := by
  cases l with
  | nil => simp [fastest_of]
  | cons r rs => simp [fastest_of_cons]

theorem fastest_of_mem {l : List BenchmarkResult} {f : BenchmarkResult}
    (h : fastest_of l = some f) : f ∈ l := by
  cases l with
  | nil => cases h
  | cons r rs =>
    rw [fastest_of_cons] at h
    have hf : rs.foldl min_acc r = f := Option.some.inj h
    rcases foldl_min_mem rs r with h' | h'
    · rw [hf] at h'
      rw [← h']
      exact List.mem_cons_self f rs
    · rw [hf] at h'
      exact List.mem_cons_of_mem r h'

theorem fastest_of_le {l : List BenchmarkResult} {f : BenchmarkResult}
    (h : fastest_of l = some f) : ∀ r ∈ l, f.mean ≤ r.mean := by
  cases l with
  | nil => cases h
  | cons r rs =>
    rw [fastest_of_cons] at h
    have hf : rs.foldl min_acc r = f := Option.some.inj h
    intro x hx
    rcases List.mem_cons.mp hx with h' | h'
    · subst h'
      rw [← hf]
      exact foldl_min_mean_le_init rs x
    · rw [← hf]
      exact foldl_min_mean_le_mem rs r x h'

theorem fastest_of_first {l : List BenchmarkResult} {f : BenchmarkResult}
    (h : fastest_of l = some f) :
    l.find? (fun r => decide (r.mean = f.mean)) = some f := by
  cases l with
  | nil => cases h
  | cons r rs =>
    rw [fastest_of_cons] at h
    have hf : rs.foldl min_acc r = f := Option.some.inj h
    rw [← hf]
    exact foldl_min_first rs r

theorem compute_eq_none_iff (l : List BenchmarkResult) :
    compute l = none ↔ l = [] := by
  unfold compute
  rw [Option.map_eq_none']
  exact fastest_of_eq_none_iff l

theorem serialize_of_compute {l : List BenchmarkResult}
    {es : List RelativeSpeedEntry} (u : Option TimeUnit)
    (h : compute l = some es) :
    serialize l u =
      .ok (markup_table (markup_unit l u) (markup_results es (markup_unit l u))) := by
  unfold serialize
  rw [h]

theorem serialize_of_compute_none {l : List BenchmarkResult} (u : Option TimeUnit)
    (h : compute l = none) :
    serialize l u =
      .error "Relative speed comparison is not available for Markdown export." := by
  unfold serialize
  rw [h]

/-! ## Rounding faithfulness -/

/-- For a non-negative value, `round_decimals` is exactly
round-half-away-from-zero at `d` decimal places: the scaled result is the
integer `n` with `n - 1/2 ≤ x * 10 ^ d < n + 1/2`, ties rounding up (which is
away from zero on non-negative input). -/
theorem round_decimals_eq_iff (d : ℕ) (x : ℚ) (n : ℕ) (hx : 0 ≤ x) :
    round_decimals d x = n ↔ (n : ℚ) - 1/2 ≤ x * 10 ^ d ∧ x * 10 ^ d < n + 1/2 := by
  unfold round_decimals
  have hflr : (0:ℤ) ≤ ⌊x * 10 ^ d + 1/2⌋ := by
    apply Int.floor_nonneg.mpr
    positivity
  rw [show (⌊x * 10 ^ d + 1/2⌋.toNat = n) ↔ (⌊x * 10 ^ d + 1/2⌋ = (n:ℤ)) from by omega]
  rw [Int.floor_eq_iff]
  constructor
  · rintro ⟨h1, h2⟩
    constructor <;> push_cast at h1 h2 ⊢ <;> linarith
  · rintro ⟨h1, h2⟩
    constructor <;> push_cast <;> linarith

theorem nat_floor_real_sqrt (n : ℕ) : ⌊Real.sqrt n⌋₊ = Nat.sqrt n := by
  have hs : (0:ℝ) ≤ Real.sqrt n := Real.sqrt_nonneg _
  rw [Nat.floor_eq_iff hs]
  constructor
  · rw [Real.le_sqrt (by positivity) (by positivity)]
    exact_mod_cast Nat.sqrt_le' n
  · rw [Real.sqrt_lt' (by positivity)]
    have h := Nat.lt_succ_sqrt' n
    rw [Nat.succ_eq_add_one] at h
    exact_mod_cast h

/-- `round_sqrt` is exactly round-half-away-from-zero of the real square root
at `d` decimal places (for non-negative input, rounding half up coincides with
rounding half away from zero). -/
theorem round_sqrt_eq_floor (d : ℕ) (q : ℚ) (hq : 0 ≤ q) :
    round_sqrt d q = ⌊(10:ℝ) ^ d * Real.sqrt (q : ℝ) + 1/2⌋₊ := by
  set a : ℕ := q.num.toNat with ha_def
  set b : ℕ := q.den with hb_def
  have hb0 : 0 < b := q.pos
  have ha : (q.num : ℚ) = (a : ℚ) := by
    rw [ha_def]
    exact_mod_cast (Int.toNat_of_nonneg (Rat.num_nonneg.mpr hq)).symm
  have hqcast : (q : ℝ) = (a : ℝ) / (b : ℝ) := by
    rw [Rat.cast_def]
    rw [show ((q.num : ℝ) = (a : ℝ)) from by exact_mod_cast ha]
  have hbR : (0:ℝ) < (b : ℝ) := by exact_mod_cast hb0
  -- rewrite 10^d * sqrt q + 1/2 as (sqrt A + b) / (2b) with A = 4*10^(2d)*a*b
  have hkey : (10:ℝ) ^ d * Real.sqrt (q : ℝ) + 1/2 =
      (Real.sqrt ((4 * 10 ^ (2 * d) * a * b : ℕ) : ℝ) + (b:ℕ)) / ((2 * b : ℕ) : ℝ) := by
    have h4 : ((4 * 10 ^ (2 * d) * a * b : ℕ) : ℝ) =
        (2 * 10 ^ d * b) ^ 2 * ((a : ℝ) / (b : ℝ)) := by
      push_cast
      field_simp
      ring
    rw [h4]
    rw [Real.sqrt_mul (by positivity) _]
    rw [Real.sqrt_sq (by positivity)]
    rw [← hqcast]
    push_cast
    field_simp
    ring
  rw [hkey]
  rw [Nat.floor_div_nat]
  rw [Nat.floor_add_nat (Real.sqrt_nonneg _)]
  rw [nat_floor_real_sqrt]
  rw [round_sqrt]

/-! ## String structure lemmas -/

theorem str_append_nil (s : String) : s ++ "" = s := by
  cases s with
  | mk d => exact congrArg String.mk (List.append_nil d)

theorem str_nil_append (s : String) : "" ++ s = s := by
  cases s with
  | mk d => rfl

theorem str_append_assoc (a b c : String) : a ++ b ++ c = a ++ (b ++ c) := by
  cases a with
  | mk d =>
    cases b with
    | mk e =>
      cases c with
      | mk f => exact congrArg String.mk (List.append_assoc d e f)

theorem table_row_newline (cells : List String) :
    ∃ s, table_row cells = s ++ "\n" := by
  refine ⟨"| " ++ String.intercalate " | " cells ++ " |", ?_⟩
  unfold table_row
  rw [show (" |\n" : String) = " |" ++ "\n" from by decide]
  rw [← str_append_assoc]

theorem table_header_newline (n : String) :
    ∃ s, table_header n = s ++ "\n" := by
  refine ⟨"| Command | Mean [" ++ n ++ "] | Min [" ++ n ++ "] | Max [" ++ n ++
    ("] | Relative |\n|:---|---:|---:|---:|---:|" : String), ?_⟩
  unfold table_header
  rw [show ("] | Relative |\n|:---|---:|---:|---:|---:|\n" : String) =
    "] | Relative |\n|:---|---:|---:|---:|---:|" ++ "\n" from by decide]
  rw [← str_append_assoc]

theorem foldl_append_shift :
    ∀ (l : List String) (a b : String),
      l.foldl (· ++ ·) (a ++ b) = a ++ l.foldl (· ++ ·) b := by
  intro l
  induction l with
  | nil => intro a b; rfl
  | cons x xs ih =>
    intro a b
    rw [List.foldl_cons, List.foldl_cons, str_append_assoc]
    exact ih a (b ++ x)

theorem append_foldl_newline :
    ∀ (l : List String) (t : String), (∃ s, t = s ++ "\n") →
      (∀ x ∈ l, ∃ s, x = s ++ "\n") →
      ∃ s, t ++ l.foldl (· ++ ·) "" = s ++ "\n" := by
  intro l
  induction l with
  | nil =>
    intro t ht _
    rw [List.foldl_nil, str_append_nil]
    exact ht
  | cons x xs ih =>
    intro t ht hl
    rw [List.foldl_cons, str_nil_append]
    rw [show xs.foldl (· ++ ·) x = x ++ xs.foldl (· ++ ·) "" from by
      rw [← foldl_append_shift xs x ""]
      rw [str_append_nil]]
    rw [← str_append_assoc]
    apply ih (t ++ x)
    · obtain ⟨sx, hsx⟩ := hl x (List.mem_cons_self x xs)
      obtain ⟨st, hst⟩ := ht
      refine ⟨t ++ sx, ?_⟩
      rw [hsx, ← str_append_assoc]
    · intro y hy
      exact hl y (List.mem_cons_of_mem x hy)

theorem string_join_eq_foldl (l : List String) :
    String.join l = l.foldl (· ++ ·) "" := rfl

theorem markup_table_newline (u : TimeUnit) (rows : List (List String)) :
    ∃ s, markup_table u rows = s ++ "\n" := by
  unfold markup_table
  rw [string_join_eq_foldl]
  apply append_foldl_newline
  · exact table_header_newline u.short_name
  · intro x hx
    obtain ⟨cells, _, hcells⟩ := List.mem_map.mp hx
    rw [← hcells]
    exact table_row_newline cells

/-! ## Fields visible in the rendered table

`visible_eq` identifies two results that agree on every field the table can
show; in particular they may differ arbitrarily in `times`, `exit_codes`,
`median`, `user`, `system` and `parameters`. -/

def visible_eq (r r' : BenchmarkResult) : Prop :=
  r.command = r'.command ∧ r.mean = r'.mean ∧ r.stddev = r'.stddev ∧
    r.min = r'.min ∧ r.max = r'.max

theorem min_acc_visible {a a' x x' : BenchmarkResult}
    (ha : visible_eq a a') (hx : visible_eq x x') :
    visible_eq (min_acc a x) (min_acc a' x') := by
  unfold min_acc
  by_cases h : x.mean < a.mean
  · have h' : x'.mean < a'.mean := by rw [← hx.2.1, ← ha.2.1]; exact h
    rw [if_pos h, if_pos h']
    exact hx
  · have h' : ¬ x'.mean < a'.mean := by rw [← hx.2.1, ← ha.2.1]; exact h
    rw [if_neg h, if_neg h']
    exact ha

theorem foldl_min_visible {rs rs' : List BenchmarkResult}
    (h : List.Forall₂ visible_eq rs rs') :
    ∀ {a a' : BenchmarkResult}, visible_eq a a' →
      visible_eq (rs.foldl min_acc a) (rs'.foldl min_acc a') := by
  induction h with
  | nil => intro a a' ha; exact ha
  | cons hxy _ ih =>
    intro a a' ha
    rw [List.foldl_cons, List.foldl_cons]
    exact ih (min_acc_visible ha hxy)

theorem make_entry_visible {f f' r r' : BenchmarkResult}
    (hf : visible_eq f f') (hr : visible_eq r r') :
    (make_entry f r).relative_mean = (make_entry f' r').relative_mean ∧
      (make_entry f r).relative_stddev_sq = (make_entry f' r').relative_stddev_sq := by
  constructor
  · rw [make_entry_rel, make_entry_rel, hr.2.1, hf.2.1]
  · cases hs : r'.stddev with
    | none =>
      rw [make_entry_sq_none f r (Or.inl (hr.2.2.1.trans hs)),
        make_entry_sq_none f' r' (Or.inl hs)]
    | some s =>
      cases hfs : f'.stddev with
      | none =>
        rw [make_entry_sq_none f r (Or.inr (hf.2.2.1.trans hfs)),
          make_entry_sq_none f' r' (Or.inr hfs)]
      | some fs =>
        rw [make_entry_sq_some f r s fs (hr.2.2.1.trans hs) (hf.2.2.1.trans hfs),
          make_entry_sq_some f' r' s fs hs hfs, hr.2.1, hf.2.1]

theorem markup_row_visible {f f' r r' : BenchmarkResult} (u : TimeUnit)
    (hf : visible_eq f f') (hr : visible_eq r r') :
    [format_command (make_entry f r).result.command,
     format_time (make_entry f r).result.mean (make_entry f r).result.stddev u,
     format_time (make_entry f r).result.min none u,
     format_time (make_entry f r).result.max none u,
     format_relative (make_entry f r).relative_mean (make_entry f r).relative_stddev_sq] =
    [format_command (make_entry f' r').result.command,
     format_time (make_entry f' r').result.mean (make_entry f' r').result.stddev u,
     format_time (make_entry f' r').result.min none u,
     format_time (make_entry f' r').result.max none u,
     format_relative (make_entry f' r').relative_mean
       (make_entry f' r').relative_stddev_sq] := by
  obtain ⟨hrel, hsq⟩ := make_entry_visible hf hr
  rw [make_entry_result, make_entry_result]
  rw [hrel, hsq, hr.1, hr.2.1, hr.2.2.1, hr.2.2.2.1, hr.2.2.2.2]

theorem markup_results_visible {l l' : List BenchmarkResult}
    {f f' : BenchmarkResult} (u : TimeUnit)
    (hf : visible_eq f f') (h : List.Forall₂ visible_eq l l') :
    markup_results (l.map (make_entry f)) u = markup_results (l'.map (make_entry f')) u := by
  induction h with
  | nil => rfl
  | cons hxy _ ih =>
    unfold markup_results at ih ⊢
    rw [List.map_cons, List.map_cons, List.map_cons, List.map_cons]
    rw [markup_row_visible u hf hxy]
    exact congrArg _ ih

theorem markup_unit_visible {l l' : List BenchmarkResult}
    (h : List.Forall₂ visible_eq l l') (u : Option TimeUnit) :
    markup_unit l u = markup_unit l' u := by
  cases u with
  | some v => rfl
  | none =>
    cases h with
    | nil => rfl
    | cons hxy _ =>
      rename_i x x' l1 l2 htl
      show unit_from_mean x.mean = unit_from_mean x'.mean
      rw [hxy.2.1]

theorem serialize_visible {l l' : List BenchmarkResult}
    (h : List.Forall₂ visible_eq l l') (u : Option TimeUnit) :
    serialize l u = serialize l' u := by
  cases hl : fastest_of l with
  | none =>
    have hl0 : l = [] := (fastest_of_eq_none_iff l).mp hl
    have hl0' : l' = [] := by
      subst hl0
      cases h
      rfl
    subst hl0
    subst hl0'
    rfl
  | some f =>
    cases l with
    | nil => cases hl
    | cons r rs =>
      cases h with
      | cons hxy htl =>
        rename_i r' rs'
        have hf : rs.foldl min_acc r = f := by
          have h2 := hl
          rw [fastest_of_cons] at h2
          exact Option.some.inj h2
        have hvis : visible_eq f (rs'.foldl min_acc r') := by
          rw [← hf]
          exact foldl_min_visible htl hxy
        rw [serialize_of_compute u (compute_of_fastest hl),
          serialize_of_compute u (compute_of_fastest (fastest_of_cons r' rs'))]
        have hu := markup_unit_visible (List.Forall₂.cons hxy htl) u
        rw [hu]
        rw [markup_results_visible (markup_unit (r' :: rs') u) hvis
          (List.Forall₂.cons hxy htl)]

/-! ## Further helpers for the claims -/

theorem format_relative_one (sq : Option ℚ) : format_relative 1 sq = "1.00" := by
  unfold format_relative
  rw [if_pos rfl]

theorem serialize_steps_of_some {l : List BenchmarkResult}
    {es : List RelativeSpeedEntry} (u : Option TimeUnit) (h : compute l = some es) :
    serialize_steps l u = [Step.compute, Step.resolve, Step.render, Step.encode] := by
  unfold serialize_steps
  rw [h]

theorem serialize_steps_of_none {l : List BenchmarkResult} (u : Option TimeUnit)
    (h : compute l = none) :
    serialize_steps l u = [Step.compute] := by
  unfold serialize_steps
  rw [h]

/-- In a list of results with pairwise distinct means, exactly one element has
the mean of a member `f`. -/
theorem countP_mean_eq_one :
    ∀ (l : List BenchmarkResult) (f : BenchmarkResult),
      l.Pairwise (fun x y => x.mean ≠ y.mean) → f ∈ l →
      l.countP (fun r => decide (r.mean = f.mean)) = 1 := by
  intro l
  induction l with
  | nil => intro f _ hf; cases hf
  | cons a tl ih =>
    intro f hpw hf
    have ha := (List.pairwise_cons.mp hpw).1
    have htl := (List.pairwise_cons.mp hpw).2
    rcases List.mem_cons.mp hf with h | h
    · subst h
      rw [List.countP_cons_of_pos _ _ (by simp)]
      have h0 : tl.countP (fun r => decide (r.mean = f.mean)) = 0 := by
        rw [List.countP_eq_zero]
        intro b hb
        simp only [decide_eq_true_eq]
        exact fun hc => (ha b hb) hc.symm
      rw [h0]
    · rw [List.countP_cons_of_neg _ _ (by
        simp only [decide_eq_true_eq]
        exact ha f h)]
      exact ih f htl h

/-- The `sleep 2` fixture with the hidden fields changed: no retained samples,
no exit codes, different CPU times.  Used to demonstrate that the rendered
table never depends on them. -/
def msR2hidden : BenchmarkResult :=
  { command := "sleep 2"
    mean := 2005/1000
    stddev := some (2/1000)
    median := 2006/1000
    user := 4/10000
    system := 5/10000
    min := 2002/1000
    max := 2008/1000
    times := none
    exit_codes := []
    parameters := [("k", "v")] }

/-- First element of a tie: mean exactly 1 second. -/
def cxA : BenchmarkResult :=
  { command := "a"
    mean := 1
    stddev := none
    median := 1
    user := 0
    system := 0
    min := 1
    max := 1
    times := none
    exit_codes := []
    parameters := [] }

/-- Second element of a tie: a different command with the same mean. -/
def cxB : BenchmarkResult :=
  { command := "b"
    mean := 1
    stddev := none
    median := 1
    user := 0
    system := 0
    min := 1
    max := 1
    times := none
    exit_codes := []
    parameters := [] }

theorem fastest_cx : fastest_of [cxA, cxB] = some cxA := by
  rw [fastest_of_pair, if_neg]
  norm_num [cxA, cxB]

theorem rel_cxA : (make_entry cxA cxA).relative_mean = 1 := by
  rw [make_entry_rel]
  norm_num [cxA]

theorem rel_cxB : (make_entry cxA cxB).relative_mean = 1 := by
  rw [make_entry_rel]
  norm_num [cxA, cxB]

/-! ## Claims -/

/-- C3: `serialize(results, unit)` fails with the RelativeComparisonUnavailable
error precisely when the input sequence is empty (equivalently `compute`
returns `none` exactly on the empty list), and for empty input no table — not
even a header-only table — is produced. -/
theorem C3_error_iff_empty (l : List BenchmarkResult) (u : Option TimeUnit) :
    (serialize l u =
        Except.error "Relative speed comparison is not available for Markdown export."
      ↔ l = [])
    ∧ (compute l = none ↔ l = [])
    ∧ (l = [] → ∀ s, serialize l u ≠ Except.ok s) := by
  refine ⟨⟨?_, ?_⟩, compute_eq_none_iff l, ?_⟩
  · intro h
    cases hcl : compute l with
    | none => exact (compute_eq_none_iff l).mp hcl
    | some es =>
      rw [serialize_of_compute u hcl] at h
      cases h
  · intro h
    subst h
    exact serialize_of_compute_none u ((compute_eq_none_iff []).mpr rfl)
  · intro h s
    subst h
    rw [serialize_of_compute_none u ((compute_eq_none_iff []).mpr rfl)]
    intro hc
    cases hc

theorem C3_witness :
    serialize [] none =
      Except.error "Relative speed comparison is not available for Markdown export." :=
  (C3_error_iff_empty [] none).1.mpr rfl

/-- C10: `serialize` is total and panic-free: it returns an error exactly when
`compute` returns `none`, and on every other input the entries are consumed
only after the `none` case has been ruled out, so it returns `Ok` with the
rendered table. -/
theorem C10_serialize_total (l : List BenchmarkResult) (u : Option TimeUnit) :
    ((∃ e, serialize l u = Except.error e) ↔ compute l = none)
    ∧ (∀ es, compute l = some es →
        serialize l u = Except.ok
          (markup_table (markup_unit l u) (markup_results es (markup_unit l u)))) := by
  constructor
  · constructor
    · rintro ⟨e, he⟩
      cases hcl : compute l with
      | none => rfl
      | some es =>
        rw [serialize_of_compute u hcl] at he
        cases he
    · intro h
      exact ⟨_, serialize_of_compute_none u h⟩
  · intro es h
    exact serialize_of_compute u h

theorem C10_witness :
    serialize msResults none = Except.ok
      (markup_table (markup_unit msResults none)
        (markup_results [make_entry msR1 msR1, make_entry msR1 msR2]
          (markup_unit msResults none))) :=
  (C10_serialize_total msResults none).2 _ compute_msResults

/-- C9 counterexample: on a concrete non-empty input the first stage
`serialize` runs is `compute`, not the Unit Resolver, refuting the claimed
orchestration order `resolve → compute → none-check → render → encode`
(the source runs `compute` at line 17 and `markup_unit` only at line 25). -/
theorem C9_counterexample :
    serialize_steps msResults none =
      [Step.compute, Step.resolve, Step.render, Step.encode]
    ∧ (serialize_steps msResults none).head? ≠ some Step.resolve := by
  have h := serialize_steps_of_some none compute_msResults
  refine ⟨h, ?_⟩
  rw [h]
  decide

/-- C9 amended: `serialize` performs its steps in the order
`compute → (if none) fail with RelativeComparisonUnavailable → resolve unit →
format and render → encode`; in particular on empty input the resolver never
runs. -/
theorem C9_step_order (l : List BenchmarkResult) (u : Option TimeUnit) :
    (compute l = none →
      serialize_steps l u = [Step.compute] ∧
        serialize l u =
          Except.error "Relative speed comparison is not available for Markdown export.")
    ∧ (∀ es, compute l = some es →
        serialize_steps l u = [Step.compute, Step.resolve, Step.render, Step.encode]) := by
  constructor
  · intro h
    exact ⟨serialize_steps_of_none u h, serialize_of_compute_none u h⟩
  · intro es h
    exact serialize_steps_of_some u h

theorem C9_witness :
    serialize_steps [] none = [Step.compute] ∧
      serialize [] none =
        Except.error "Relative speed comparison is not available for Markdown export." :=
  (C9_step_order [] none).1 ((compute_eq_none_iff []).mpr rfl)

/-- C4: a forced unit is returned unchanged; otherwise the unit is chosen from
the first result's mean alone (seconds for a mean of at least 1 s, else
milliseconds, else microseconds), independent of the remaining results; and the
resolved unit is passed uniformly to every time cell of every row, never
reselected per row. -/
theorem C4_unit_resolution :
    (∀ (l : List BenchmarkResult) (u : TimeUnit), markup_unit l (some u) = u)
    ∧ (∀ (r : BenchmarkResult) (t : List BenchmarkResult),
        1 ≤ r.mean → markup_unit (r :: t) none = TimeUnit.Second)
    ∧ (∀ (r : BenchmarkResult) (t : List BenchmarkResult),
        1/1000 ≤ r.mean → r.mean < 1 → markup_unit (r :: t) none = TimeUnit.MilliSecond)
    ∧ (∀ (r : BenchmarkResult) (t : List BenchmarkResult),
        r.mean < 1/1000 → markup_unit (r :: t) none = TimeUnit.MicroSecond)
    ∧ (∀ (r : BenchmarkResult) (t t' : List BenchmarkResult),
        markup_unit (r :: t) none = markup_unit (r :: t') none)
    ∧ (∀ (es : List RelativeSpeedEntry) (u : TimeUnit),
        markup_results es u = es.map (fun e =>
          [format_command e.result.command,
           format_time e.result.mean e.result.stddev u,
           format_time e.result.min none u,
           format_time e.result.max none u,
           format_relative e.relative_mean e.relative_stddev_sq])) := by
  refine ⟨fun l u => rfl, ?_, ?_, ?_, fun r t t' => rfl, fun es u => rfl⟩
  · intro r t h
    show unit_from_mean r.mean = TimeUnit.Second
    unfold unit_from_mean
    rw [if_pos h]
  · intro r t h1 h2
    show unit_from_mean r.mean = TimeUnit.MilliSecond
    unfold unit_from_mean
    rw [if_neg (not_le.mpr h2), if_pos h1]
  · intro r t h
    show unit_from_mean r.mean = TimeUnit.MicroSecond
    unfold unit_from_mean
    rw [if_neg (not_le.mpr (lt_trans h (by norm_num))), if_neg (not_le.mpr h)]

theorem C4_witness :
    markup_unit [msR2, msR1] none = TimeUnit.Second ∧
      markup_unit [msR1, msR2] none = TimeUnit.MilliSecond :=
  ⟨C4_unit_resolution.2.1 msR2 [msR1] (by norm_num [msR2]),
   C4_unit_resolution.2.2.1 msR1 [msR2] (by norm_num [msR1]) (by norm_num [msR1])⟩

/-- C5: changing the forced display unit changes only the absolute-time cells:
the Relative column (last cell of each row) and the Command column are
rendered identically under any two units, and both runs of `serialize` render
the same computed entries (whose `relative_mean`/`relative_stddev` do not
depend on the unit, since `compute` never receives it). -/
theorem C5_unit_invariance (es : List RelativeSpeedEntry) (u1 u2 : TimeUnit)
    (l : List BenchmarkResult) (v1 v2 : Option TimeUnit) (h : compute l = some es) :
    ((markup_results es u1).map (fun row => row.getLast?) =
      (markup_results es u2).map (fun row => row.getLast?))
    ∧ ((markup_results es u1).map (fun row => row.head?) =
      (markup_results es u2).map (fun row => row.head?))
    ∧ serialize l v1 = Except.ok
        (markup_table (markup_unit l v1) (markup_results es (markup_unit l v1)))
    ∧ serialize l v2 = Except.ok
        (markup_table (markup_unit l v2) (markup_results es (markup_unit l v2))) := by
  refine ⟨?_, ?_, serialize_of_compute v1 h, serialize_of_compute v2 h⟩
  · unfold markup_results
    rw [List.map_map, List.map_map]
    rfl
  · unfold markup_results
    rw [List.map_map, List.map_map]
    rfl

theorem C5_witness :
    ((markup_results [make_entry msR1 msR1, make_entry msR1 msR2]
        TimeUnit.MilliSecond).map (fun row => row.getLast?) =
      (markup_results [make_entry msR1 msR1, make_entry msR1 msR2]
        TimeUnit.Second).map (fun row => row.getLast?))
    ∧ ((markup_results [make_entry msR1 msR1, make_entry msR1 msR2]
        TimeUnit.MilliSecond).map (fun row => row.head?) =
      (markup_results [make_entry msR1 msR1, make_entry msR1 msR2]
        TimeUnit.Second).map (fun row => row.head?))
    ∧ serialize msResults (some TimeUnit.MilliSecond) = Except.ok
        (markup_table (markup_unit msResults (some TimeUnit.MilliSecond))
          (markup_results [make_entry msR1 msR1, make_entry msR1 msR2]
            (markup_unit msResults (some TimeUnit.MilliSecond))))
    ∧ serialize msResults (some TimeUnit.Second) = Except.ok
        (markup_table (markup_unit msResults (some TimeUnit.Second))
          (markup_results [make_entry msR1 msR1, make_entry msR1 msR2]
            (markup_unit msResults (some TimeUnit.Second)))) :=
  C5_unit_invariance [make_entry msR1 msR1, make_entry msR1 msR2]
    TimeUnit.MilliSecond TimeUnit.Second msResults
    (some TimeUnit.MilliSecond) (some TimeUnit.Second) compute_msResults

/-- C8: the rendered rows appear in exactly the input order, regardless of
which entry is fastest: the computed entries carry the input results in order,
and the command cell of the i-th row is the i-th input command. -/
theorem C8_row_order (l : List BenchmarkResult) (u : TimeUnit)
    (f : BenchmarkResult) (hf : fastest_of l = some f) :
    compute l = some (l.map (make_entry f))
    ∧ (l.map (make_entry f)).map (fun e => e.result) = l
    ∧ (markup_results (l.map (make_entry f)) u).map (fun row => row.head?) =
        l.map (fun r => some (format_command r.command)) := by
  refine ⟨compute_of_fastest hf, ?_, ?_⟩
  · simp [List.map_map, Function.comp_def, make_entry_result]
  · unfold markup_results
    rw [List.map_map, List.map_map]
    rfl

theorem C8_witness :
    compute msResults = some (msResults.map (make_entry msR1))
    ∧ (msResults.map (make_entry msR1)).map (fun e => e.result) = msResults
    ∧ (markup_results (msResults.map (make_entry msR1)) TimeUnit.MilliSecond).map
        (fun row => row.head?) =
      msResults.map (fun r => some (format_command r.command)) :=
  C8_row_order msResults TimeUnit.MilliSecond msR1 fastest_msResults

/-- C7: time formatting uses a fixed unit-dependent precision — 3 decimals for
seconds, 1 decimal for milliseconds and microseconds — with
round-half-away-from-zero (characterized for non-negative input); a mean of
2.0050 s renders as `2005.0` in ms and as `2.005` in s, and a stddev of
0.0016 s renders as `0.002` in an s-unit table. -/
theorem C7_time_precision :
    (TimeUnit.decimal_places TimeUnit.Second = 3
      ∧ TimeUnit.decimal_places TimeUnit.MilliSecond = 1
      ∧ TimeUnit.decimal_places TimeUnit.MicroSecond = 1)
    ∧ (∀ (d : ℕ) (x : ℚ) (n : ℕ), 0 ≤ x →
        (round_decimals d x = n ↔ (n : ℚ) - 1/2 ≤ x * 10 ^ d ∧ x * 10 ^ d < n + 1/2))
    ∧ format_time (2005/1000) none TimeUnit.MilliSecond = "2005.0"
    ∧ format_time (2005/1000) none TimeUnit.Second = "2.005"
    ∧ format_time (1057/10000) (some (16/10000)) TimeUnit.Second = "0.106 ± 0.002" := by
  refine ⟨⟨rfl, rfl, rfl⟩, fun d x n hx => round_decimals_eq_iff d x n hx, ?_, ?_, ?_⟩
  · show format_value 1 ((2005/1000 : ℚ) * 1000) ++ "" = "2005.0"
    rw [format_value_eval 1 ((2005/1000 : ℚ) * 1000) 20050 20050 (by norm_num) rfl]
    decide
  · show format_value 3 ((2005/1000 : ℚ) * 1) ++ "" = "2.005"
    rw [format_value_eval 3 ((2005/1000 : ℚ) * 1) 2005 2005 (by norm_num) rfl]
    decide
  · show format_value 3 ((1057/10000 : ℚ) * 1) ++
      (" ± " ++ format_value 3 ((16/10000 : ℚ) * 1)) = "0.106 ± 0.002"
    rw [format_value_eval 3 ((1057/10000 : ℚ) * 1) 106 106 (by norm_num) rfl]
    rw [format_value_eval 3 ((16/10000 : ℚ) * 1) 2 2 (by norm_num) rfl]
    decide

theorem C7_witness :
    round_decimals 2 (1/8 : ℚ) = 13 ↔
      (13 : ℚ) - 1/2 ≤ (1/8 : ℚ) * 10 ^ 2 ∧ (1/8 : ℚ) * 10 ^ 2 < (13 : ℚ) + 1/2 :=
  C7_time_precision.2.1 2 (1/8) 13 (by norm_num)

/-- C2: when both standard deviations are present the stored squared relative
uncertainty takes square root to `r * sqrt((stddev/mean)^2 +
(fastest.stddev/fastest.mean)^2)` with `r = mean / fastest.mean`; it is absent
exactly when either stddev is absent; its rendering rounds the true real value
half-away-from-zero; and on the fixture pair (0.1057 s ± 0.0016 s versus
2.0050 s ± 0.0020 s) the slower entry renders relative mean `18.97` and
relative stddev `0.29`. -/
theorem C2_uncertainty_propagation :
    (∀ f r : BenchmarkResult,
      ((make_entry f r).relative_stddev_sq.isSome ↔ (r.stddev.isSome ∧ f.stddev.isSome)))
    ∧ (∀ (f r : BenchmarkResult) (s fs : ℚ), r.stddev = some s → f.stddev = some fs →
        0 ≤ r.mean / f.mean →
        Real.sqrt (((make_entry f r).relative_stddev_sq.getD 0 : ℚ) : ℝ) =
          ((r.mean / f.mean : ℚ) : ℝ) *
            Real.sqrt (((s / r.mean) ^ 2 + (fs / f.mean) ^ 2 : ℚ) : ℝ))
    ∧ (∀ (d : ℕ) (q : ℚ), 0 ≤ q →
        round_sqrt d q = ⌊(10:ℝ) ^ d * Real.sqrt (q : ℝ) + 1/2⌋₊)
    ∧ compute msResults = some [make_entry msR1 msR1, make_entry msR1 msR2]
    ∧ format_value 2 (make_entry msR1 msR2).relative_mean = "18.97"
    ∧ format_relative (make_entry msR1 msR2).relative_mean
        (make_entry msR1 msR2).relative_stddev_sq = "18.97 ± 0.29" := by
  refine ⟨?_, ?_, fun d q hq => round_sqrt_eq_floor d q hq, compute_msResults, ?_,
    format_relative_msR2⟩
  · intro f r
    cases hs : r.stddev with
    | none =>
      rw [make_entry_sq_none f r (Or.inl hs)]
      simp
    | some s =>
      cases hfs : f.stddev with
      | none =>
        rw [make_entry_sq_none f r (Or.inr hfs)]
        simp
      | some fs =>
        rw [make_entry_sq_some f r s fs hs hfs]
        simp
  · intro f r s fs hs hfs hratio
    rw [make_entry_sq_some f r s fs hs hfs]
    rw [show (some ((r.mean / f.mean) ^ 2 * ((s / r.mean) ^ 2 + (fs / f.mean) ^ 2))).getD 0
      = (r.mean / f.mean) ^ 2 * ((s / r.mean) ^ 2 + (fs / f.mean) ^ 2) from rfl]
    rw [show (((r.mean / f.mean) ^ 2 * ((s / r.mean) ^ 2 + (fs / f.mean) ^ 2) : ℚ) : ℝ) =
      ((r.mean / f.mean : ℚ) : ℝ) ^ 2 * (((s / r.mean) ^ 2 + (fs / f.mean) ^ 2 : ℚ) : ℝ)
      from by push_cast; ring]
    rw [Real.sqrt_mul (sq_nonneg _)]
    rw [Real.sqrt_sq (by exact_mod_cast hratio)]
  · rw [rel_msR2]
    rw [format_value_eval 2 (20050/1057 : ℚ) 1897 1897 (by norm_num) rfl]
    decide

theorem C2_witness :
    round_sqrt 2 (9/4 : ℚ) = ⌊(10:ℝ) ^ 2 * Real.sqrt ((9/4 : ℚ) : ℝ) + 1/2⌋₊ :=
  C2_uncertainty_propagation.2.2.1 2 (9/4) (by norm_num)

/-- C6: the rendered table is one header block followed by exactly one row per
input entry; every row (and the whole table) ends with a newline; `±` segments
are omitted when the corresponding uncertainty is absent; and the output never
depends on the raw sample sequence (`times`) or the exit codes — two inputs
agreeing on all table-visible fields render identically. -/
theorem C6_table_structure :
    (∀ (l : List BenchmarkResult) (u : Option TimeUnit) (es : List RelativeSpeedEntry),
      compute l = some es →
        serialize l u = Except.ok
          (markup_table (markup_unit l u) (markup_results es (markup_unit l u)))
        ∧ (markup_results es (markup_unit l u)).length = l.length)
    ∧ (∀ (u : TimeUnit) (rows : List (List String)), ∃ s, markup_table u rows = s ++ "\n")
    ∧ (∀ cells : List String, ∃ s, table_row cells = s ++ "\n")
    ∧ (∀ (v : ℚ) (u : TimeUnit),
        format_time v none u = format_value u.decimal_places (v * u.factor))
    ∧ (∀ q : ℚ, q ≠ 1 → format_relative q none = format_value 2 q)
    ∧ (∀ (l l' : List BenchmarkResult) (u : Option TimeUnit),
        List.Forall₂ visible_eq l l' → serialize l u = serialize l' u) := by
  refine ⟨?_, markup_table_newline, table_row_newline, ?_, ?_,
    fun l l' u h => serialize_visible h u⟩
  · intro l u es h
    refine ⟨serialize_of_compute u h, ?_⟩
    unfold compute at h
    obtain ⟨f, _, hmap⟩ := Option.map_eq_some'.mp h
    rw [← hmap]
    unfold markup_results
    rw [List.length_map, List.length_map]
  · intro v u
    show format_value u.decimal_places (v * u.factor) ++ "" =
      format_value u.decimal_places (v * u.factor)
    exact str_append_nil _
  · intro q hq
    unfold format_relative
    rw [if_neg hq]
    exact str_append_nil _

theorem C6_witness :
    (serialize msResults none = Except.ok
        (markup_table (markup_unit msResults none)
          (markup_results [make_entry msR1 msR1, make_entry msR1 msR2]
            (markup_unit msResults none)))
      ∧ (markup_results [make_entry msR1 msR1, make_entry msR1 msR2]
          (markup_unit msResults none)).length = msResults.length)
    ∧ serialize [msR1, msR2] none = serialize [msR1, msR2hidden] none :=
  ⟨C6_table_structure.1 msResults none [make_entry msR1 msR1, make_entry msR1 msR2]
      compute_msResults,
   C6_table_structure.2.2.2.2.2 [msR1, msR2] [msR1, msR2hidden] none
     (List.Forall₂.cons ⟨rfl, rfl, rfl, rfl, rfl⟩
       (List.Forall₂.cons ⟨rfl, rfl, rfl, rfl, rfl⟩ List.Forall₂.nil))⟩

/-- C1 counterexample: two results tied on the minimum mean both receive
`relative_mean == 1.0`, so the claimed "exactly one entry has
`relative_mean == 1.0`" fails on a tie. -/
theorem C1_counterexample :
    compute [cxA, cxB] = some [make_entry cxA cxA, make_entry cxA cxB]
    ∧ (make_entry cxA cxA).relative_mean = 1
    ∧ (make_entry cxA cxB).relative_mean = 1
    ∧ ¬ ([make_entry cxA cxA, make_entry cxA cxB].countP
          (fun e => decide (e.relative_mean = 1)) = 1) := by
  refine ⟨compute_of_fastest fastest_cx, rel_cxA, rel_cxB, ?_⟩
  intro hc
  simp only [List.countP_cons, List.countP_nil, rel_cxA, rel_cxB] at hc
  omega

/-- C1 amended: for a non-empty input whose minimum mean is positive, the
fastest entry is the first minimum-mean result in input order, its entry has
`relative_mean == 1.0` and renders as exactly `"1.00"` with no `±` suffix
even when stddev values are present, every entry has `relative_mean ≥ 1.0`,
the entries with `relative_mean == 1.0` are exactly those whose mean equals
the minimum, and when the means are pairwise distinct exactly one entry has
`relative_mean == 1.0` (ties make every tied entry's ratio equal 1.0). -/
theorem C1_fastest_normalization (l : List BenchmarkResult) (f : BenchmarkResult)
    (hf : fastest_of l = some f) (hpos : 0 < f.mean) :
    compute l = some (l.map (make_entry f))
    ∧ f ∈ l
    ∧ (∀ r ∈ l, f.mean ≤ r.mean)
    ∧ l.find? (fun r => decide (r.mean = f.mean)) = some f
    ∧ (∀ e ∈ l.map (make_entry f), 1 ≤ e.relative_mean)
    ∧ (∀ e ∈ l.map (make_entry f), (e.relative_mean = 1 ↔ e.result.mean = f.mean))
    ∧ (make_entry f f).relative_mean = 1
    ∧ (∀ e ∈ l.map (make_entry f), e.relative_mean = 1 →
        format_relative e.relative_mean e.relative_stddev_sq = "1.00")
    ∧ (l.Pairwise (fun x y => x.mean ≠ y.mean) →
        (l.map (make_entry f)).countP (fun e => decide (e.relative_mean = 1)) = 1) := by
  have hmem := fastest_of_mem hf
  have hle := fastest_of_le hf
  refine ⟨compute_of_fastest hf, hmem, hle, fastest_of_first hf, ?_, ?_, ?_, ?_, ?_⟩
  · intro e he
    obtain ⟨r, hr, rfl⟩ := List.mem_map.mp he
    rw [make_entry_rel]
    exact (one_le_div hpos).mpr (hle r hr)
  · intro e he
    obtain ⟨r, hr, rfl⟩ := List.mem_map.mp he
    rw [make_entry_rel, make_entry_result]
    exact div_eq_one_iff_eq (ne_of_gt hpos)
  · rw [make_entry_rel]
    exact div_self (ne_of_gt hpos)
  · intro e he h1
    rw [h1]
    exact format_relative_one _
  · intro hpw
    rw [List.countP_map]
    have hcongr : ∀ r ∈ l,
        (((fun e => decide (e.relative_mean = 1)) ∘ make_entry f) r = true ↔
          (fun r => decide (r.mean = f.mean)) r = true) := by
      intro r _
      simp only [Function.comp_apply, make_entry_rel, decide_eq_true_eq]
      exact div_eq_one_iff_eq (ne_of_gt hpos)
    rw [List.countP_congr hcongr]
    exact countP_mean_eq_one l f hpw hmem

theorem C1_witness :
    compute msResults = some (msResults.map (make_entry msR1))
    ∧ msR1 ∈ msResults
    ∧ (∀ r ∈ msResults, msR1.mean ≤ r.mean)
    ∧ msResults.find? (fun r => decide (r.mean = msR1.mean)) = some msR1
    ∧ (∀ e ∈ msResults.map (make_entry msR1), 1 ≤ e.relative_mean)
    ∧ (∀ e ∈ msResults.map (make_entry msR1),
        (e.relative_mean = 1 ↔ e.result.mean = msR1.mean))
    ∧ (make_entry msR1 msR1).relative_mean = 1
    ∧ (∀ e ∈ msResults.map (make_entry msR1), e.relative_mean = 1 →
        format_relative e.relative_mean e.relative_stddev_sq = "1.00")
    ∧ (msResults.Pairwise (fun x y => x.mean ≠ y.mean) →
        (msResults.map (make_entry msR1)).countP
          (fun e => decide (e.relative_mean = 1)) = 1) :=
  C1_fastest_normalization msResults msR1 fastest_msResults (by norm_num [msR1])

end Hyperfine
